import Mathlib

/-!
Shallow embedding of `src/linuxShell.c`, a small interactive shell with a
raw-mode line editor, a five-slot circular command history, a tokenizer with
background (`&`) detection, `!!` recall, and `<`/`>` redirection resolution.

The C program keeps four globals for the history subsystem:
`char history[BUFFER_SIZE][MAX_LENGTH]`, `int command_count`,
`int next_command`, and `int buffer_index` (`-1` = not browsing).  They are
modelled here as a `ShellState` record; `history` becomes a total function
`Nat → String` (only indices `0 .. BUFFER_SIZE-1` are ever touched, matching
the C array).  All C `int` index arithmetic that can in principle go negative
is modelled on `Int` with `Int.tmod`, which is exactly C's truncated `%`.
-/

namespace LinuxShell

/-- C macro `BUFFER_SIZE`: history capacity. -/
def BUFFER_SIZE : Nat := 5

/-- C macro `MAX_LENGTH`: maximum command-line length (buffer size in bytes). -/
def MAX_LENGTH : Nat := 1024

/-- C macro `MAX_ARGS`: maximum number of argument slots. -/
def MAX_ARGS : Nat := 64

/-- The four history-related globals of `linuxShell.c` (lines 16-19). -/
structure ShellState where
  history : Nat → String
  command_count : Nat
  next_command : Nat
  buffer_index : Int

/-- Initial global state: zero-initialised history array (all empty strings),
`command_count = 0`, `next_command = 0`, `buffer_index = -1`. -/
def initState : ShellState :=
  { history := fun _ => ""
    command_count := 0
    next_command := 0
    buffer_index := -1 }

/-- The `start` computation repeated at lines 97-102, 120-125, 173-178 and
205-210 of `get_input`: `0` while the buffer is not yet full, else
`next_command`. -/
def bufStart (command_count next_command : Nat) : Nat :=
  if command_count < BUFFER_SIZE then 0 else next_command

/-- C expression `(start + command_count - 1) % BUFFER_SIZE` (lines 103, 126,
179, 211), on `Int` with truncated remainder exactly as C computes it. -/
def mostRecent (command_count next_command : Nat) : Int :=
  Int.tmod ((bufStart command_count next_command : Int) + (command_count : Int) - 1)
    (BUFFER_SIZE : Int)

/-- Cursor effect of one simulated or real up-arrow keypress
(lines 94-116 of the warm-up, identical to the cursor logic of the
`ESC [ A` branch at lines 170-190): no-op on empty history; from "not
browsing" jump to the most recent slot; clamp at the oldest slot (`start`);
otherwise step back one slot modulo `BUFFER_SIZE`. -/
def cursorMoveBack (command_count next_command : Nat) (cursor : Int) : Int :=
  if command_count > 0 then
    if cursor = -1 then mostRecent command_count next_command
    else if cursor = (bufStart command_count next_command : Int) then cursor
    else Int.tmod (cursor - 1 + (BUFFER_SIZE : Int)) (BUFFER_SIZE : Int)
  else cursor

/-- Cursor effect of one simulated or real down-arrow keypress
(lines 117-136 of the warm-up, identical to the cursor logic of the
`ESC [ B` branch at lines 202-225): no-op when not browsing; from the most
recent slot reset to "not browsing" (`-1`); otherwise step forward one slot
modulo `BUFFER_SIZE`. -/
def cursorMoveForward (command_count next_command : Nat) (cursor : Int) : Int :=
  if cursor ≠ -1 then
    if cursor = mostRecent command_count next_command then -1
    else Int.tmod (cursor + 1) (BUFFER_SIZE : Int)
  else cursor

/-- The warm-up performed at the top of every `get_input` call (lines 93-136):
exactly 5 simulated up-arrow presses followed by 5 simulated down-arrow
presses, acting only on `buffer_index`. -/
def warmupCursor (command_count next_command : Nat) (cursor : Int) : Int :=
  (cursorMoveForward command_count next_command)^[5]
    ((cursorMoveBack command_count next_command)^[5] cursor)

/-- A cursor value is valid for a given history occupancy when it is the
"not browsing" sentinel `-1` or the physical index of one of the
`command_count` stored entries, i.e. `(start + j) % BUFFER_SIZE` for some
`j < command_count`. -/
def validCursor (command_count next_command : Nat) (cursor : Int) : Bool :=
  cursor = -1 ||
    (List.range command_count).any fun j =>
      cursor = Int.tmod ((bufStart command_count next_command : Int) + (j : Int))
        (BUFFER_SIZE : Int)

/-- The warm-up of lines 94-136 lifted to the full global state: it reads and
writes only `buffer_index`. -/
def warmupState (st : ShellState) : ShellState :=
  { st with
    buffer_index := warmupCursor st.command_count st.next_command st.buffer_index }

/-- C expression `(next_command - 1 + BUFFER_SIZE) % BUFFER_SIZE` (lines 262
and 526).  `next_command` is a `Nat` here and the C value is nonnegative, so
`(next_command + BUFFER_SIZE - 1) % BUFFER_SIZE` is the same number with no
truncated subtraction. -/
def lastIndex (next_command : Nat) : Nat :=
  (next_command + BUFFER_SIZE - 1) % BUFFER_SIZE

/-- `add_to_buffer` (lines 255-275): ignore empty commands; ignore a command
equal to the most recently stored one; otherwise store it in slot
`next_command`, advance `next_command` modulo `BUFFER_SIZE`, saturate
`command_count` at `BUFFER_SIZE`, and reset `buffer_index` to `-1`. -/
def add_to_buffer (st : ShellState) (cmd : String) : ShellState :=
  if cmd.length = 0 then st
  else if st.command_count > 0 ∧ st.history (lastIndex st.next_command) = cmd then st
  else
    { history := Function.update st.history st.next_command cmd
      command_count :=
        if st.command_count < BUFFER_SIZE then st.command_count + 1
        else st.command_count
      next_command := (st.next_command + 1) % BUFFER_SIZE
      buffer_index := -1 }

/-- Logical history contents, oldest to newest: slots `0 .. count-1` while the
buffer is not yet full, else slots `next_command, next_command+1, …` cyclically
(the traversal order the up/down-arrow browsing code walks through). -/
def entries (st : ShellState) : List String :=
  if st.command_count < BUFFER_SIZE then
    (List.range st.command_count).map st.history
  else
    (List.range BUFFER_SIZE).map fun k =>
      st.history ((st.next_command + k) % BUFFER_SIZE)

/-- Character-level scan behind `strtok(input, " ")`: accumulate the current
token in `acc` (reversed); a space ends the current token; runs of spaces
produce no empty tokens, exactly as `strtok` skips delimiter runs. -/
def strtokAux : List Char → List Char → List String
  | [], acc => if acc.isEmpty then [] else [String.mk acc.reverse]
  | c :: rest, acc =>
    if c = ' ' then
      if acc.isEmpty then strtokAux rest []
      else String.mk acc.reverse :: strtokAux rest []
    else strtokAux rest (c :: acc)

/-- The token sequence produced by the `strtok(input, " ")` / `strtok(NULL,
" ")` calls of `divide_args` (lines 285 and 294): maximal space-free runs of
the input, in order. -/
def strtokSpaces (input : String) : List String := strtokAux input.data []

/-- The token-consuming loop of `divide_args` (lines 288-295): arguments are
accumulated while fewer than `MAX_ARGS - 1` have been stored; a token exactly
`"&"` sets the background flag instead of being stored.  Returns the argument
list (the C `args` array up to its `NULL` terminator), the stored-argument
count `i`, and the background flag. -/
def divideArgsLoop : List String → Nat → Bool → List String × Nat × Bool
  | [], i, bg => ([], i, bg)
  | seg :: rest, i, bg =>
    if i < MAX_ARGS - 1 then
      if seg = "&" then divideArgsLoop rest i true
      else
        let r := divideArgsLoop rest (i + 1) bg
        (seg :: r.1, r.2.1, r.2.2)
    else ([], i, bg)

/-- `divide_args` (lines 283-299): `strtok(input, " ")` splits the line on
runs of spaces (empty segments are skipped), then the loop above collects
arguments and detects `&`. -/
def divide_args (input : String) : List String × Nat × Bool :=
  divideArgsLoop (strtokSpaces input) 0 false

/-- A command line consisting of 63 `a` tokens followed by one `&` token:
`divide_args` stores the 63 `a` arguments, reaching the `i < MAX_ARGS - 1`
bound, and therefore exits its loop without ever examining the `&`. -/
def longAmpLine : String := String.join (List.replicate 63 "a " ++ ["&"])

/-- `handle_input_or_output` (lines 413-426): scan the argument vector for the
first `>` or `<`; on `>` the next token becomes the output file, on `<` the
input file; the argument vector is cut off at the operator (`args[j] = NULL`)
and the scan stops (`break`).  Returns the surviving argument vector, the
input file, and the output file. -/
def handle_input_or_output : List String → List String × Option String × Option String
  | [] => ([], none, none)
  | a :: rest =>
    if a = ">" then ([], none, rest.head?)
    else if a = "<" then ([], rest.head?, none)
    else
      let r := handle_input_or_output rest
      (a :: r.1, r.2.1, r.2.2)

/-- Outcome of one iteration of the `main` loop (lines 505-564) for a given
completed input line, as far as the history subsystem and process creation are
concerned. -/
inductive CycleAction where
  /-- Empty input: `continue` at line 517, nothing else happens. -/
  | skipEmpty : CycleAction
  /-- Input `!!` with empty history: the message `No commands in history.` is
  printed and `continue` at line 524 skips tokenization, builtins and every
  `fork`, so no process is spawned this cycle. -/
  | noHistory : CycleAction
  /-- The given line is handed on to `divide_args` and the dispatch chain
  (builtins / pipe / redirection / `run_instruction`). -/
  | execute : String → CycleAction
deriving DecidableEq

/-- The history-and-dispatch prefix of one `main`-loop iteration
(lines 516-534): empty lines are skipped; `!!` recalls the entry at
`(next_command - 1 + BUFFER_SIZE) % BUFFER_SIZE` without touching the history
(or just prints `No commands in history.` when the buffer is empty); any other
line is appended to the history via `add_to_buffer` and then executed. -/
def processLine (st : ShellState) (input : String) : ShellState × CycleAction :=
  if input.length = 0 then (st, .skipEmpty)
  else if input = "!!" then
    if st.command_count = 0 then (st, .noHistory)
    else (st, .execute (st.history (lastIndex st.next_command)))
  else (add_to_buffer st input, .execute input)

/-- The character-reading loop of `get_input` (lines 139-245), over the
pending byte stream of standard input.  An empty list models `read` returning
`0` (end-of-stream).  The accumulator `buf` holds the live characters
`buf[0 .. count-1]` of the C buffer and `count` mirrors the C `int count`
variable.  Returns the triple `(count, buf, globals)` as left at the `return
count` of line 246.  In the `ESC` branch the C code issues two further
`read` calls for `seq[0]` and `seq[1]`; a read that returns `0` makes the C
code `continue`, after which the next loop iteration's read also returns `0`
and the loop breaks. -/
def giLoop : List Nat → ShellState → List Char → Int → Int × List Char × ShellState
  | [], _st, buf, count => (count, buf, _st)
  | c :: rest, st, buf, count =>
    if c = 10 ∨ c = 13 then (count, buf, st)
    else if c = 127 ∨ c = 8 then
      if count > 0 then giLoop rest st buf.dropLast (count - 1)
      else giLoop rest st buf count
    else if c = 27 then
      match rest with
      | [] => (count, buf, st)
      | [_] => (count, buf, st)
      | s0 :: s1 :: rest2 =>
        if s0 = 91 ∧ s1 = 65 then
          if st.command_count > 0 then
            if st.buffer_index = -1 then
              let st2 := { st with
                buffer_index := mostRecent st.command_count st.next_command }
              let e := st2.history st2.buffer_index.toNat
              giLoop rest2 st2 e.data (e.length : Int)
            else if st.buffer_index =
                (bufStart st.command_count st.next_command : Int) then
              giLoop rest2 st buf count
            else
              let st2 := { st with
                buffer_index :=
                  Int.tmod (st.buffer_index - 1 + (BUFFER_SIZE : Int))
                    (BUFFER_SIZE : Int) }
              let e := st2.history st2.buffer_index.toNat
              giLoop rest2 st2 e.data (e.length : Int)
          else giLoop rest2 st buf count
        else if s0 = 91 ∧ s1 = 66 then
          if st.buffer_index ≠ -1 then
            if st.buffer_index = mostRecent st.command_count st.next_command then
              giLoop rest2 { st with buffer_index := -1 } [] 0
            else
              let st2 := { st with
                buffer_index := Int.tmod (st.buffer_index + 1) (BUFFER_SIZE : Int) }
              let e := st2.history st2.buffer_index.toNat
              giLoop rest2 st2 e.data (e.length : Int)
          else giLoop rest2 st buf count
        else giLoop rest2 st buf count
    else
      if count < (MAX_LENGTH : Int) - 1 then
        giLoop rest st (buf ++ [Char.ofNat c]) (count + 1)
      else giLoop rest st buf count

/-- `get_input` (lines 87-247): clear the buffer, run the warm-up of 5
simulated up-arrows and 5 simulated down-arrows, then run the read loop.
Returns the value of `return count` together with the final buffer contents
and globals. -/
def get_input (bytes : List Nat) (st : ShellState) :
    Int × List Char × ShellState :=
  giLoop bytes (warmupState st) [] 0

/-! ## Lemmas and claim theorems -/

lemma validCursor_bounds (c n : Nat) (cur : Int)
    (h : validCursor c n cur = true) : -1 ≤ cur ∧ cur < 5 := by
  simp only [validCursor, Bool.or_eq_true, decide_eq_true_eq, List.any_eq_true,
    List.mem_range] at h
  rcases h with h | ⟨j, _, rfl⟩
  · omega
  · have h0 : (0 : Int) ≤ (bufStart c n : Int) + (j : Int) := by positivity
    have h1 := Int.tmod_nonneg (BUFFER_SIZE : Int) h0
    have h2 := Int.tmod_lt_of_pos ((bufStart c n : Int) + (j : Int))
      (show (0 : Int) < (BUFFER_SIZE : Int) by norm_num [BUFFER_SIZE])
    norm_num [BUFFER_SIZE] at h1 h2 ⊢
    omega

lemma giLoop_count_nonneg (bytes : List Nat) (st : ShellState) (buf : List Char)
    (count : Int) : 0 ≤ count → 0 ≤ (giLoop bytes st buf count).1 := by
  induction bytes, st, buf, count using giLoop.induct <;>
    intro h <;>
    rw [giLoop.eq_def] <;>
    simp_all <;>
    first
    | omega
    | (split_ifs <;> (try simp_all) <;> omega)

/-- C1: `get_input` does break out of its read loop when `read` yields no
byte, but it then executes `return count`, and `count` is never negative: so
the value `main` tests with `if (get_input(input) < 0) break;` (line 511) can
never be negative, the `break` is unreachable, and the shell loop does not
terminate when standard input reaches end-of-stream.  First conjunct: the
return value is nonnegative for every byte stream and every global state.
Second conjunct: at the failing input itself (stream already at end-of-stream,
nothing typed), `get_input` returns `0`, not a negative value. -/
theorem get_input_return_nonneg :
    (∀ (bytes : List Nat) (st : ShellState), 0 ≤ (get_input bytes st).1) ∧
    (get_input [] initState).1 = 0 := by
  exact ⟨fun bytes st => giLoop_count_nonneg bytes (warmupState st) [] 0 le_rfl,
    by decide⟩

/-- C2, counterexample: resolving `"sort < a.txt > b.txt"` does NOT leave `>`
and `b.txt` as literal trailing arguments of the command — `args[j] = NULL` at
the `<` cuts the argument vector off, so neither token survives in the
argument vector handed to `execvp`. -/
theorem redirection_cex :
    ">" ∉ (handle_input_or_output (divide_args "sort < a.txt > b.txt").1).1 ∧
    "b.txt" ∉ (handle_input_or_output (divide_args "sort < a.txt > b.txt").1).1 := by
  decide

/-- C2, amended: on `"sort < a.txt > b.txt"` the first operator found (`<`)
wins, `a.txt` is bound as the input file, no output file is bound, and the
surviving argument vector is just `["sort"]` — the `>` and `b.txt` tokens are
truncated away, not passed to the command and not treated as a second
redirection. -/
theorem redirection_first_operator_wins :
    handle_input_or_output (divide_args "sort < a.txt > b.txt").1 =
      (["sort"], some "a.txt", none) := by
  decide

/-- C3, counterexample: after `ESC` followed by a byte other than `[`, the
editor does NOT resume normal processing at the very next byte: it issues a
second `read` and discards that byte too.  On the byte stream
`ESC x y a ⏎` the code produces the line `"a"`; if the second byte after
`ESC` were not consumed, processing would resume at `y` and (as the second
conjunct shows on the stream `y a ⏎`) the line would be `"ya"`. -/
theorem escape_cex :
    (get_input [27, 120, 121, 97, 10] initState).2.1 = ['a'] ∧
    (get_input [121, 97, 10] initState).2.1 = ['y', 'a'] := by
  decide

/-- C3, amended: after an `ESC` byte the editor always reads two further
bytes; when the first of them is not `[`, both are consumed and discarded and
processing resumes after them with buffer, count and history state
unchanged. -/
theorem escape_non_bracket_discards_two_bytes (st : ShellState) (buf : List Char)
    (count : Int) (x y : Nat) (rest : List Nat) (hx : x ≠ 91) :
    giLoop (27 :: x :: y :: rest) st buf count = giLoop rest st buf count := by
  rw [giLoop.eq_def]
  simp [hx]

/-- Witness for `escape_non_bracket_discards_two_bytes` at the concrete bytes
`ESC x y` with `x = 120 ≠ 91`. -/
theorem escape_non_bracket_discards_two_bytes_witness :
    (120 : Nat) ≠ 91 ∧
    giLoop [27, 120, 121, 97, 10] initState [] 0 = giLoop [97, 10] initState [] 0 :=
  ⟨by decide,
    escape_non_bracket_discards_two_bytes initState [] 0 120 121 [97, 10] (by decide)⟩

lemma add_to_buffer_count_le (st : ShellState) (cmd : String)
    (h : st.command_count ≤ BUFFER_SIZE) :
    (add_to_buffer st cmd).command_count ≤ BUFFER_SIZE := by
  unfold add_to_buffer
  split_ifs <;> simp_all <;> omega

lemma foldl_add_count_le (cmds : List String) (st : ShellState)
    (h : st.command_count ≤ BUFFER_SIZE) :
    (cmds.foldl add_to_buffer st).command_count ≤ BUFFER_SIZE := by
  induction cmds generalizing st with
  | nil => exact h
  | cons c cs ih => exact ih _ (add_to_buffer_count_le st c h)

lemma string_length_ne_zero (s : String) (h : s ≠ "") : s.length ≠ 0 := by
  intro h0
  apply h
  cases s with
  | mk data =>
    simp only [String.length] at h0
    simp_all [List.length_eq_zero]

/-- C4: three universally quantified facts about the circular history.
First, starting from the initial (empty) history, `command_count` never
exceeds `BUFFER_SIZE = 5` under any sequence of appends.  Second, once
`command_count = BUFFER_SIZE`, for every state and every successful append
(non-empty command differing from the newest entry): the slot at
`next_command` holds the logically oldest entry, the append overwrites
exactly that slot with the new command, and `command_count` stays at
`BUFFER_SIZE`.  Third, for every six pairwise-distinct non-empty commands
appended in order to the empty history, the buffer holds exactly the last
five in submission order and the oldest submitted command is absent. -/
theorem history_capacity_universal :
    (∀ cmds : List String,
      (cmds.foldl add_to_buffer initState).command_count ≤ BUFFER_SIZE) ∧
    (∀ (st : ShellState) (cmd : String),
      st.command_count = BUFFER_SIZE → st.next_command < BUFFER_SIZE →
      cmd ≠ "" → st.history (lastIndex st.next_command) ≠ cmd →
      (entries st).head? = some (st.history st.next_command) ∧
      (add_to_buffer st cmd).history st.next_command = cmd ∧
      (add_to_buffer st cmd).command_count = BUFFER_SIZE) ∧
    (∀ c1 c2 c3 c4 c5 c6 : String,
      (∀ c ∈ [c1, c2, c3, c4, c5, c6], c ≠ "") →
      [c1, c2, c3, c4, c5, c6].Pairwise (· ≠ ·) →
      entries ([c1, c2, c3, c4, c5, c6].foldl add_to_buffer initState) =
        [c2, c3, c4, c5, c6] ∧
      c1 ∉ entries ([c1, c2, c3, c4, c5, c6].foldl add_to_buffer initState)) := by
  refine ⟨fun cmds => foldl_add_count_le cmds initState (by decide), ?_, ?_⟩
  · intro st cmd hc hn hcmd hdup
    refine ⟨?_, ?_, ?_⟩
    · unfold entries
      rw [if_neg (by omega)]
      rw [show List.range BUFFER_SIZE = [0, 1, 2, 3, 4] from rfl]
      simp [BUFFER_SIZE, Nat.mod_eq_of_lt (show st.next_command < 5 from hn)]
    · have hl := string_length_ne_zero cmd hcmd
      simp [add_to_buffer, hl, hdup, hc, Function.update_same]
    · have hl := string_length_ne_zero cmd hcmd
      simp [add_to_buffer, hl, hdup, hc, BUFFER_SIZE]
  · intro c1 c2 c3 c4 c5 c6 hne hd
    have n1 : c1 ≠ "" := hne c1 (by simp)
    have n2 : c2 ≠ "" := hne c2 (by simp)
    have n3 : c3 ≠ "" := hne c3 (by simp)
    have n4 : c4 ≠ "" := hne c4 (by simp)
    have n5 : c5 ≠ "" := hne c5 (by simp)
    have n6 : c6 ≠ "" := hne c6 (by simp)
    rw [List.pairwise_cons] at hd
    obtain ⟨h1, hd⟩ := hd
    rw [List.pairwise_cons] at hd
    obtain ⟨h2, hd⟩ := hd
    rw [List.pairwise_cons] at hd
    obtain ⟨h3, hd⟩ := hd
    rw [List.pairwise_cons] at hd
    obtain ⟨h4, hd⟩ := hd
    rw [List.pairwise_cons] at hd
    obtain ⟨h5, _⟩ := hd
    have d12 : c1 ≠ c2 := h1 c2 (by simp)
    have d13 : c1 ≠ c3 := h1 c3 (by simp)
    have d14 : c1 ≠ c4 := h1 c4 (by simp)
    have d15 : c1 ≠ c5 := h1 c5 (by simp)
    have d16 : c1 ≠ c6 := h1 c6 (by simp)
    have d23 : c2 ≠ c3 := h2 c3 (by simp)
    have d34 : c3 ≠ c4 := h3 c4 (by simp)
    have d45 : c4 ≠ c5 := h4 c5 (by simp)
    have d56 : c5 ≠ c6 := h5 c6 (by simp)
    have l1 := string_length_ne_zero c1 n1
    have l2 := string_length_ne_zero c2 n2
    have l3 := string_length_ne_zero c3 n3
    have l4 := string_length_ne_zero c4 n4
    have l5 := string_length_ne_zero c5 n5
    have l6 := string_length_ne_zero c6 n6
    simp [add_to_buffer, entries, initState, lastIndex, BUFFER_SIZE, List.range_succ,
      Function.update_same, Function.update_noteq,
      l1, l2, l3, l4, l5, l6, d12, d13, d14, d15, d16, d23, d34, d45, d56]

/-- Witness for `history_capacity_universal` exercising its second conjunct at
a concrete full buffer (five appends, then a successful sixth) and its third
conjunct at the six concrete distinct commands `c1 … c6`. -/
theorem history_capacity_universal_witness :
    ((entries (["a", "b", "c", "d", "e"].foldl add_to_buffer initState)).head? =
        some ((["a", "b", "c", "d", "e"].foldl add_to_buffer initState).history
          (["a", "b", "c", "d", "e"].foldl add_to_buffer initState).next_command) ∧
      (add_to_buffer (["a", "b", "c", "d", "e"].foldl add_to_buffer initState) "f").history
          (["a", "b", "c", "d", "e"].foldl add_to_buffer initState).next_command = "f" ∧
      (add_to_buffer (["a", "b", "c", "d", "e"].foldl add_to_buffer initState)
          "f").command_count = BUFFER_SIZE) ∧
    (entries (["c1", "c2", "c3", "c4", "c5", "c6"].foldl add_to_buffer initState) =
        ["c2", "c3", "c4", "c5", "c6"] ∧
      "c1" ∉ entries (["c1", "c2", "c3", "c4", "c5", "c6"].foldl add_to_buffer initState)) :=
  ⟨history_capacity_universal.2.1 (["a", "b", "c", "d", "e"].foldl add_to_buffer initState)
      "f" (by decide) (by decide) (by decide) (by decide),
    history_capacity_universal.2.2 "c1" "c2" "c3" "c4" "c5" "c6" (by decide) (by decide)⟩

lemma lastIndex_next (n : Nat) (h : n < BUFFER_SIZE) :
    lastIndex ((n + 1) % BUFFER_SIZE) = n := by
  simp only [lastIndex, BUFFER_SIZE] at h ⊢
  omega

/-- C5: appending an empty entry, or an entry equal to the most recently
appended one, leaves the whole history state (slots, `command_count`,
`next_command`, `buffer_index`) unchanged; consequently appending the same
command twice in direct succession is the same as appending it once. -/
theorem append_noop_on_empty_or_duplicate (st : ShellState) (cmd : String)
    (hnext : st.next_command < BUFFER_SIZE) :
    add_to_buffer st "" = st ∧
    (st.command_count > 0 → st.history (lastIndex st.next_command) = cmd →
      add_to_buffer st cmd = st) ∧
    add_to_buffer (add_to_buffer st cmd) cmd = add_to_buffer st cmd := by
  refine ⟨by simp [add_to_buffer], fun h1 h2 => by simp [add_to_buffer, h1, h2], ?_⟩
  by_cases hc : cmd.length = 0
  · simp [add_to_buffer, hc]
  · by_cases hdup : st.command_count > 0 ∧ st.history (lastIndex st.next_command) = cmd
    · simp [add_to_buffer, hc, hdup]
    · have hstep : add_to_buffer st cmd =
          { history := Function.update st.history st.next_command cmd
            command_count :=
              if st.command_count < BUFFER_SIZE then st.command_count + 1
              else st.command_count
            next_command := (st.next_command + 1) % BUFFER_SIZE
            buffer_index := -1 } := by
        simp [add_to_buffer, hc, hdup]
      rw [hstep]
      have hcount : (if st.command_count < BUFFER_SIZE then st.command_count + 1
          else st.command_count) > 0 := by split_ifs <;> omega
      have hlast : lastIndex ((st.next_command + 1) % BUFFER_SIZE) = st.next_command :=
        lastIndex_next st.next_command hnext
      have hdupkey : Function.update st.history st.next_command cmd
          (lastIndex ((st.next_command + 1) % BUFFER_SIZE)) = cmd := by
        rw [hlast]
        exact Function.update_same _ _ _
      simp [add_to_buffer, hc, hcount, hdupkey]

/-- Witness for `append_noop_on_empty_or_duplicate` at the initial state and
the command `ls`. -/
theorem append_noop_on_empty_or_duplicate_witness :
    initState.next_command < BUFFER_SIZE ∧
    add_to_buffer (add_to_buffer initState "ls") "ls" = add_to_buffer initState "ls" :=
  ⟨by decide, (append_noop_on_empty_or_duplicate initState "ls" (by decide)).2.2⟩

/-- C6: for every history occupancy (`command_count ≤ 5`, `next_command < 5`),
every history content (the cursor arithmetic never reads the stored strings),
and every valid entry cursor (not browsing, or the physical index of a stored
entry), the warm-up of 5 clamped back-moves followed by 5 forward-moves leaves
the browse cursor at `-1` ("not browsing") — so it is idempotent and
observably equivalent to directly initialising the cursor to "not
browsing". -/
theorem warmup_normalizes_cursor (c n : Nat) (cur : Int)
    (hc : c ≤ 5) (hn : n < 5) (hv : validCursor c n cur = true) :
    warmupCursor c n cur = -1 := by
  have hb := validCursor_bounds c n cur hv
  have key : ∀ cf : Fin 6, ∀ nf : Fin 5, ∀ kf : Fin 6,
      validCursor cf.val nf.val ((kf.val : Int) - 1) = true →
      warmupCursor cf.val nf.val ((kf.val : Int) - 1) = -1 := by decide
  have hcur : (((cur + 1).toNat : Fin 6).val : Int) - 1 = cur := by
    have : ((cur + 1).toNat : Fin 6) = ⟨(cur + 1).toNat, by omega⟩ := by
      simp [Fin.ext_iff, Nat.mod_eq_of_lt (show (cur + 1).toNat < 6 by omega)]
    rw [this]
    simp only []
    omega
  have := key ⟨c, by omega⟩ ⟨n, by omega⟩ ⟨(cur + 1).toNat, by omega⟩
  simp only [show ((⟨(cur + 1).toNat, by omega⟩ : Fin 6) : Nat) = (cur + 1).toNat
    from rfl] at this
  rw [show (((cur + 1).toNat : Nat) : Int) - 1 = cur by omega] at this
  exact this hv

/-- Witness for `warmup_normalizes_cursor` with a full buffer
(`command_count = 5`, `next_command = 2`) and the cursor on slot `1`. -/
theorem warmup_normalizes_cursor_witness :
    ((5 : Nat) ≤ 5 ∧ (2 : Nat) < 5 ∧ validCursor 5 2 1 = true) ∧
    warmupCursor 5 2 1 = -1 :=
  ⟨⟨by decide, by decide, by decide⟩,
    warmup_normalizes_cursor 5 2 1 (by decide) (by decide) (by decide)⟩

/-- C7: from "not browsing", `K` consecutive up-arrow cursor moves followed by
`K` consecutive down-arrow cursor moves return the browse cursor to "not
browsing", for every occupancy `0 < command_count ≤ 5`, every
`next_command < 5`, and every `K ≤ command_count`. -/
theorem back_forward_cancel (c n K : Nat)
    (hc0 : 0 < c) (hc : c ≤ 5) (hn : n < 5) (hK : K ≤ c) :
    (cursorMoveForward c n)^[K] ((cursorMoveBack c n)^[K] (-1)) = -1 := by
  have key : ∀ cf : Fin 6, ∀ nf : Fin 5, ∀ kf : Fin 6,
      0 < cf.val → kf.val ≤ cf.val →
      (cursorMoveForward cf.val nf.val)^[kf.val]
        ((cursorMoveBack cf.val nf.val)^[kf.val] (-1)) = -1 := by decide
  exact key ⟨c, by omega⟩ ⟨n, by omega⟩ ⟨K, by omega⟩ hc0 hK

/-- Witness for `back_forward_cancel` with three stored commands and `K = 2`. -/
theorem back_forward_cancel_witness :
    (0 < 3 ∧ (3 : Nat) ≤ 5 ∧ (0 : Nat) < 5 ∧ (2 : Nat) ≤ 3) ∧
    (cursorMoveForward 3 0)^[2] ((cursorMoveBack 3 0)^[2] (-1)) = -1 :=
  ⟨⟨by decide, by decide, by decide, by decide⟩,
    back_forward_cancel 3 0 2 (by decide) (by decide) (by decide) (by decide)⟩

lemma divideArgsLoop_no_amp (toks : List String) (i : Nat) (bg : Bool) :
    "&" ∉ (divideArgsLoop toks i bg).1 := by
  induction toks generalizing i bg with
  | nil => simp [divideArgsLoop]
  | cons t ts ih =>
    unfold divideArgsLoop
    split_ifs with h1 h2
    · exact ih i true
    · intro hmem
      rcases List.mem_cons.mp hmem with h | h
      · exact h2 h.symm
      · exact ih (i + 1) bg h
    · simp

lemma divideArgsLoop_flag_mono (toks : List String) (i : Nat) :
    (divideArgsLoop toks i true).2.2 = true := by
  induction toks generalizing i with
  | nil => rfl
  | cons t ts ih =>
    unfold divideArgsLoop
    split_ifs <;> simp [ih]

lemma divideArgsLoop_amp_sets_flag (pre : List String) (suf : List String)
    (i : Nat) (bg : Bool) (hpre : "&" ∉ pre) (hlen : i + pre.length < MAX_ARGS - 1) :
    (divideArgsLoop (pre ++ "&" :: suf) i bg).2.2 = true := by
  induction pre generalizing i bg with
  | nil =>
    simp only [List.nil_append]
    unfold divideArgsLoop
    rw [if_pos (by simpa using hlen), if_pos rfl]
    exact divideArgsLoop_flag_mono suf i
  | cons t ts ih =>
    have ht : t ≠ "&" := fun h => hpre (h ▸ List.mem_cons_self t ts)
    have hts : "&" ∉ ts := fun h => hpre (List.mem_cons_of_mem t h)
    simp only [List.cons_append]
    unfold divideArgsLoop
    rw [if_pos (by simp at hlen ⊢; omega), if_neg ht]
    exact ih (i + 1) bg hts (by simp at hlen ⊢; omega)

/-- C8, counterexample: a token exactly equal to `&` does NOT always set the
background flag.  On the line of 63 `a` tokens followed by `&`, the tokenizer
stores 63 arguments, the loop condition `i < MAX_ARGS - 1` fails, and the `&`
token is never examined: the background flag stays `false` even though the
line contains an `&` token. -/
theorem tokenizer_amp_cex :
    "&" ∈ strtokSpaces longAmpLine ∧
    (divide_args longAmpLine).2.1 = MAX_ARGS - 1 ∧
    (divide_args longAmpLine).2.2 = false := by
  decide

/-- C8, amended: the tokenizer splits the line on space characters; a token
exactly equal to `&` is never stored in the argument vector (first conjunct,
for every input line); an `&` token reached while fewer than `MAX_ARGS - 1`
arguments have been stored sets the background flag (second conjunct); and
tokenizing `"ls -l &"` yields the argument vector `["ls", "-l"]`, count `2`,
and background flag `true` (third conjunct). -/
theorem tokenizer_amp_rules :
    (∀ input : String, "&" ∉ (divide_args input).1) ∧
    (∀ (input : String) (pre suf : List String),
      strtokSpaces input = pre ++ "&" :: suf → "&" ∉ pre →
      pre.length < MAX_ARGS - 1 → (divide_args input).2.2 = true) ∧
    divide_args "ls -l &" = (["ls", "-l"], 2, true) := by
  refine ⟨fun input => divideArgsLoop_no_amp (strtokSpaces input) 0 false, ?_, by decide⟩
  intro input pre suf hsplit hpre hlen
  unfold divide_args
  rw [hsplit]
  exact divideArgsLoop_amp_sets_flag pre suf 0 false hpre (by simpa using hlen)

/-- Witness for `tokenizer_amp_rules` exercising its second conjunct on the
line `"ls -l &"`, whose `&` token follows only two stored arguments. -/
theorem tokenizer_amp_rules_witness :
    (strtokSpaces "ls -l &" = ["ls", "-l"] ++ "&" :: [] ∧ "&" ∉ (["ls", "-l"] : List String) ∧
      (["ls", "-l"] : List String).length < MAX_ARGS - 1) ∧
    (divide_args "ls -l &").2.2 = true :=
  ⟨⟨by decide, by decide, by decide⟩,
    tokenizer_amp_rules.2.1 "ls -l &" ["ls", "-l"] [] (by decide) (by decide) (by decide)⟩

/-- C9: a `!!` input line against an empty history produces the
`No commands in history.` outcome: the state is returned unchanged and the
cycle ends in `CycleAction.noHistory`, i.e. `main` prints the message and
`continue`s before tokenization, builtins, or any `fork`, so no process is
spawned and the history is untouched. -/
theorem recall_on_empty_history (st : ShellState) (h : st.command_count = 0) :
    processLine st "!!" = (st, CycleAction.noHistory) := by
  unfold processLine
  rw [if_neg (by decide), if_pos rfl, if_pos h]

/-- Witness for `recall_on_empty_history` at the initial state. -/
theorem recall_on_empty_history_witness :
    initState.command_count = 0 ∧
    processLine initState "!!" = (initState, CycleAction.noHistory) :=
  ⟨rfl, recall_on_empty_history initState rfl⟩

/-- C10: processing the input line `!!` never modifies the history state —
slots, `command_count`, `next_command` and `buffer_index` are all returned
exactly as they were, whether the history is empty or not, because only
non-`!!` lines reach `add_to_buffer`. -/
theorem recall_preserves_history (st : ShellState) :
    (processLine st "!!").1 = st := by
  unfold processLine
  split_ifs <;> first | rfl | simp_all

end LinuxShell
